import Mathlib

/-!
Shallow embedding of the round-resolution engine of the "Take 6" style card
game (sources: `src/services/aiService.ts` / `gameLogic`, and the host-side
game orchestration in the main App component).  Pure functions are translated
directly; the React state updates of the host loop are modelled as explicit
state-passing functions on the players/rows/phase data.
-/

namespace CowKing

/-- `CardData` from `src/types.ts`: card number plus stored penalty points. -/
structure CardData where
  id : Nat
  bullHeads : Nat
deriving Repr, DecidableEq

/-- `GameRow` from `src/types.ts`: one board row. -/
structure GameRow where
  cards : List CardData
deriving Repr, DecidableEq

/-- `RoundResult` from `src/types.ts`. -/
structure RoundResult where
  score : Int
  heads : Nat
deriving Repr, DecidableEq

/-- `PlayerType` from `src/types.ts`. -/
inductive PlayerType where
  | HUMAN
  | BOT
deriving Repr, DecidableEq

/-- `Player` from `src/types.ts` (fields relevant to the engine). -/
structure Player where
  id : String
  name : String
  type : PlayerType
  hand : List CardData
  collectedCards : List CardData
  scoreHistory : List RoundResult
  totalScore : Int
  selectedCard : Option CardData
  isReady : Bool
deriving Repr, DecidableEq

/-- `GamePhase` from `src/types.ts`. -/
inductive GamePhase where
  | LOBBY
  | DEALING
  | PLAYER_CHOICE
  | REVEAL
  | RESOLVING
  | CHOOSING_ROW
  | ROUND_VOTING
  | ROUND_END
  | GAME_END
deriving Repr, DecidableEq

/-- Placeholder card used only as the default of `List.getD`. -/
def dummyCard : CardData := { id := 0, bullHeads := 0 }

/-- Placeholder row used only as the default of `List.getD`. -/
def dummyRow : GameRow := { cards := [] }

/-- Placeholder player used only as the default of `List.getD`. -/
def dummyPlayer : Player :=
  { id := "", name := "", type := PlayerType.BOT, hand := [], collectedCards := [],
    scoreHistory := [], totalScore := 0, selectedCard := none, isReady := false }

/-- `TOTAL_CARDS` from `gameLogic`. -/
def TOTAL_CARDS : Nat := 104

/-- `getBullHeads` from `gameLogic`: penalty (bull heads) of a card number. -/
def getBullHeads (num : Nat) : Nat :=
  if num = 55 then 7
  else if num % 11 = 0 then 5
  else if num % 10 = 0 then 3
  else if num % 5 = 0 then 2
  else 1

/-- The penalty function exactly as the spec (§3) words it, kept separate from
`getBullHeads` so the two can be compared. -/
def penaltySpec (id : Nat) : Nat :=
  if id = 55 then 7
  else if id % 11 = 0 then 5
  else if id % 10 = 0 then 3
  else if id % 5 = 0 then 2
  else 1

/-- `generateDeck` from `gameLogic`: one card per id in `[1, 104]`. -/
def generateDeck : List CardData :=
  (List.range' 1 TOTAL_CARDS).map (fun i => { id := i, bullHeads := getBullHeads i })

/-- `sumBullHeads` from `gameLogic`: total bull heads of a card list. -/
def sumBullHeads (cards : List CardData) : Nat :=
  cards.foldl (fun sum card => sum + card.bullHeads) 0

/-- `calculateRoundScore` from `gameLogic`:
`totalHeads - (myHeads * playerCount)`. -/
def calculateRoundScore (player : Player) (allPlayers : List Player) : Int :=
  let myHeads := sumBullHeads player.collectedCards
  let totalHeads := allPlayers.foldl (fun sum p => sum + sumBullHeads p.collectedCards) 0
  let playerCount := allPlayers.length
  (totalHeads : Int) - (myHeads : Int) * (playerCount : Int)

/-- The body of the `rows.forEach` loop of `findTargetRowIndex`, written as a
recursion over the remaining rows.  `idx` is the index of the first remaining
row, `best` the current `bestRowIndex`, and `minDiff = none` models the initial
`Infinity`. -/
def findTargetGo (cardId : Nat) : List GameRow → Nat → Int → Option Nat → Int
  | [], _, best, _ => best
  | row :: rest, idx, best, minDiff =>
    match row.cards.getLast? with
    | none => findTargetGo cardId rest (idx + 1) best minDiff
    | some lastCard =>
      if lastCard.id < cardId then
        let diff := cardId - lastCard.id
        match minDiff with
        | none => findTargetGo cardId rest (idx + 1) (idx : Int) (some diff)
        | some m =>
          if diff < m then findTargetGo cardId rest (idx + 1) (idx : Int) (some diff)
          else findTargetGo cardId rest (idx + 1) best minDiff
      else findTargetGo cardId rest (idx + 1) best minDiff

/-- `findTargetRowIndex` from `gameLogic`: index of the row whose last card is
closest below the played card, `-1` when every row's last card is too high.
Rows with no cards are skipped by the loop's safety check. -/
def findTargetRowIndex (card : CardData) (rows : List GameRow) : Int :=
  findTargetGo card.id rows 0 (-1) none

/-- Proof-side view of one row in `findTargetRowIndex`: `some diff` when the
row is non-empty and its last card is strictly below the played id. -/
def rowDiff (cardId : Nat) (row : GameRow) : Option Nat :=
  match row.cards.getLast? with
  | none => none
  | some lastCard => if lastCard.id < cardId then some (cardId - lastCard.id) else none

/-- A revealed choice `{playerId, card}` (the `turnCards` entries of the App). -/
structure TurnCard where
  playerId : String
  card : CardData
deriving Repr, DecidableEq

/-- Placeholder turn used only as the default of `List.getD`. -/
def dummyTurn : TurnCard := { playerId := "", card := dummyCard }

/-- The comparator of `startRevealPhase`'s sort: ascending by card id. -/
def turnLe (a b : TurnCard) : Bool := a.card.id ≤ b.card.id

/-- The batch built by `startRevealPhase`: each player paired with their
`selectedCard`, sorted ascending by card id (a stable sort, as JS `sort`). -/
def startRevealTurnCards (players : List Player) : List TurnCard :=
  (players.map (fun p => { playerId := p.id, card := p.selectedCard.getD dummyCard })).mergeSort
    turnLe

/-- The resolution-loop effect: starting from `resolvingIndex = i`, the loop
processes `turnCards[i]` and advances to `i + 1` until the index reaches the
batch length.  `resolutionOrder turnCards i` is the sequence of turns it
processes. -/
def resolutionOrder (turnCards : List TurnCard) (i : Nat) : List TurnCard :=
  if h : i < turnCards.length then
    turnCards.getD i dummyTurn :: resolutionOrder turnCards (i + 1)
  else []
termination_by turnCards.length - i

/-- The three outcomes of `processCardPlacement` in the App. -/
inductive PlacementOutcome where
  | tooLow
  | overflow (rowIndex : Nat)
  | normal (rowIndex : Nat)
deriving Repr, DecidableEq

/-- The dispatch of `processCardPlacement`: `-1` target means a too-low event,
a target row already holding 5 or more cards means an overflow event, and
otherwise the card is appended normally. -/
def processCardPlacement (card : CardData) (rows : List GameRow) : PlacementOutcome :=
  if findTargetRowIndex card rows = -1 then PlacementOutcome.tooLow
  else if 5 ≤ (rows.getD (findTargetRowIndex card rows).toNat dummyRow).cards.length then
    PlacementOutcome.overflow (findTargetRowIndex card rows).toNat
  else PlacementOutcome.normal (findTargetRowIndex card rows).toNat

/-- `placeCardInRow` of the App, restricted to its board effect: the played
card is appended to the target row. -/
def placeCardInRow (card : CardData) (rowIndex : Nat) (rows : List GameRow) : List GameRow :=
  rows.set rowIndex { cards := (rows.getD rowIndex dummyRow).cards ++ [card] }

/-- `executeRowTake` of the App: the captured row's cards join the taking
player's `collectedCards`, and the row is replaced by a singleton holding only
the played card. -/
def executeRowTake (turn : TurnCard) (rowIndex : Nat) (players : List Player)
    (rows : List GameRow) : List Player × List GameRow :=
  let rowCards := (rows.getD rowIndex dummyRow).cards
  (players.map (fun p =>
      if p.id = turn.playerId then { p with collectedCards := p.collectedCards ++ rowCards }
      else p),
   rows.set rowIndex { cards := [turn.card] })

/-- One resolution step of the App on the `(players, rows)` state: a normal
append, an overflow capture of the computed target row, or a too-low capture of
a chosen row (human or bot choice, always one of the board's rows). -/
inductive ResolutionStep (turn : TurnCard) :
    List Player × List GameRow → List Player × List GameRow → Prop where
  | normal (ps : List Player) (rows : List GameRow) (i : Nat) :
      processCardPlacement turn.card rows = PlacementOutcome.normal i →
      ResolutionStep turn (ps, rows) (ps, placeCardInRow turn.card i rows)
  | overflow (ps : List Player) (rows : List GameRow) (i : Nat) :
      processCardPlacement turn.card rows = PlacementOutcome.overflow i →
      ResolutionStep turn (ps, rows) (executeRowTake turn i ps rows)
  | tooLow (ps : List Player) (rows : List GameRow) (j : Nat) :
      processCardPlacement turn.card rows = PlacementOutcome.tooLow →
      j < rows.length →
      ResolutionStep turn (ps, rows) (executeRowTake turn j ps rows)

/-- A row's card ids are strictly increasing. -/
def rowSorted (row : GameRow) : Prop :=
  (row.cards.map CardData.id).Chain' (· < ·)

/-- The board invariant of spec §4.2: every row strictly increasing with
between 1 and 5 cards. -/
def boardInv (rows : List GameRow) : Prop :=
  ∀ r ∈ rows, rowSorted r ∧ 1 ≤ r.cards.length ∧ r.cards.length ≤ 5

/-- `handlePlayerAction` of the App (same update as `handleCardSelection` of
the first App variant): a select-card intent unconditionally records the card
as the player's `selectedCard` and clears readiness. -/
def handlePlayerAction (card : CardData) (playerId : String) (players : List Player) :
    List Player :=
  players.map (fun p =>
    if p.id = playerId then { p with selectedCard := some card, isReady := false } else p)

/-- `calculateScoresAndNextRound` of the App: every player gets one new
`RoundResult` appended and their `totalScore` bumped, and the phase moves to
`ROUND_VOTING`. -/
def calculateScoresAndNextRound (players : List Player) : List Player × GamePhase :=
  (players.map (fun p =>
    let roundScore := calculateRoundScore p players
    let roundHeads := sumBullHeads p.collectedCards
    { p with
      scoreHistory := p.scoreHistory ++ [{ score := roundScore, heads := roundHeads }],
      totalScore := p.totalScore + roundScore }),
   GamePhase.ROUND_VOTING)

/-- `finishTurnSet` of the App: selections are cleared; if the first player's
hand is empty the round is scored (note the source scores the pre-clear
`players` captured by the closure), otherwise the next batch begins.  The
`none` branch is unreachable in the App, which always has players. -/
def finishTurnSet (players : List Player) : List Player × GamePhase :=
  let nextPlayers := players.map (fun p => { p with selectedCard := none, isReady := false })
  match nextPlayers.head? with
  | some p0 =>
    if p0.hand.length = 0 then calculateScoresAndNextRound players
    else (nextPlayers, GamePhase.PLAYER_CHOICE)
  | none => (nextPlayers, GamePhase.PLAYER_CHOICE)

/-- Example player for the scoring scenarios: collected card 10, worth 3 heads. -/
def examplePlayerA : Player :=
  { dummyPlayer with id := "A", collectedCards := [{ id := 10, bullHeads := getBullHeads 10 }] }

/-- Example player for the scoring scenarios: collected card 55, worth 7 heads. -/
def examplePlayerB : Player :=
  { dummyPlayer with id := "B", collectedCards := [{ id := 55, bullHeads := getBullHeads 55 }] }

/-- Example board of the spec's target-row scenario: rows ending in 10, 25, 60, 90. -/
def exampleRows : List GameRow :=
  [{ cards := [{ id := 10, bullHeads := getBullHeads 10 }] },
   { cards := [{ id := 25, bullHeads := getBullHeads 25 }] },
   { cards := [{ id := 60, bullHeads := getBullHeads 60 }] },
   { cards := [{ id := 90, bullHeads := getBullHeads 90 }] }]

/-- Board with an empty first row, for the skipping scenario. -/
def rowsWithEmpty : List GameRow :=
  [{ cards := [] },
   { cards := [{ id := 25, bullHeads := getBullHeads 25 }] },
   { cards := [{ id := 60, bullHeads := getBullHeads 60 }] }]

/-- The full row `[1,2,3,4,5]` of the overflow scenario. -/
def fullRow : GameRow :=
  { cards := [{ id := 1, bullHeads := getBullHeads 1 },
              { id := 2, bullHeads := getBullHeads 2 },
              { id := 3, bullHeads := getBullHeads 3 },
              { id := 4, bullHeads := getBullHeads 4 },
              { id := 5, bullHeads := getBullHeads 5 }] }

/-- The turn playing card 6 in the overflow scenario. -/
def overflowTurn : TurnCard :=
  { playerId := "T", card := { id := 6, bullHeads := getBullHeads 6 } }

/-- The player taking the full row in the overflow scenario. -/
def takerPlayer : Player := { dummyPlayer with id := "T" }

/-- The turn playing card 30 on the example board (a normal append). -/
def exampleTurn : TurnCard :=
  { playerId := "A", card := { id := 30, bullHeads := getBullHeads 30 } }

/-- Player who selected card 20, for the reveal-order scenario. -/
def revealPlayerX : Player :=
  { dummyPlayer with id := "X", selectedCard := some { id := 20, bullHeads := getBullHeads 20 } }

/-- Player who selected card 7, for the reveal-order scenario. -/
def revealPlayerY : Player :=
  { dummyPlayer with id := "Y", selectedCard := some { id := 7, bullHeads := getBullHeads 7 } }

/-- A card the example player does not hold, for the select-card scenario. -/
def outOfHandCard : CardData := { id := 99, bullHeads := getBullHeads 99 }

/-- Player holding only card 5, for the select-card scenario. -/
def selectPlayer : Player :=
  { dummyPlayer with id := "p1", hand := [{ id := 5, bullHeads := getBullHeads 5 }] }

/-! ### Helper lemmas -/

theorem foldl_add_eq_sum {α : Type} (f : α → Nat) :
    ∀ (l : List α) (s : Nat), l.foldl (fun a x => a + f x) s = s + (l.map f).sum := by
  intro l
  induction l with
  | nil => intro s; simp
  | cons a t ih =>
    intro s
    simp only [List.foldl_cons, List.map_cons, List.sum_cons, ih]
    omega

theorem sumBullHeads_eq_sum (cards : List CardData) :
    sumBullHeads cards = (cards.map CardData.bullHeads).sum := by
  simpa using foldl_add_eq_sum CardData.bullHeads cards 0

theorem cast_sum_map {α : Type} (f : α → Nat) (l : List α) :
    (((l.map f).sum : Nat) : Int) = (l.map (fun x => ((f x : Nat) : Int))).sum := by
  induction l with
  | nil => simp
  | cons a t ih => simp [ih]

theorem sum_map_sub_mul (l : List Player) (c n : Int) (g : Player → Int) :
    (l.map (fun p => c - g p * n)).sum = (l.length : Int) * c - (l.map g).sum * n := by
  induction l with
  | nil => simp
  | cons a t ih =>
    simp only [List.map_cons, List.sum_cons, List.length_cons, ih]
    push_cast
    ring

theorem calculateRoundScore_eq (p : Player) (allPlayers : List Player) :
    calculateRoundScore p allPlayers =
      (((allPlayers.map (fun q => sumBullHeads q.collectedCards)).sum : Nat) : Int) -
        ((sumBullHeads p.collectedCards : Nat) : Int) * (allPlayers.length : Int) := by
  unfold calculateRoundScore
  rw [foldl_add_eq_sum (fun q => sumBullHeads q.collectedCards) allPlayers 0]
  simp

theorem getBullHeads_ge_one (n : Nat) : 1 ≤ getBullHeads n := by
  unfold getBullHeads
  repeat' split
  all_goals omega

theorem getLast?_of_ne_nil {l : List CardData} (h : l ≠ []) :
    l.getLast? = some (l.getLastD dummyCard) := by
  cases hl : l.getLast? with
  | none => exact absurd (List.getLast?_eq_none_iff.mp hl) h
  | some a => rw [List.getLastD_eq_getLast?, hl]; rfl

theorem rowDiff_eq_none_iff (cardId : Nat) (row : GameRow) :
    rowDiff cardId row = none ↔
      ∀ lc, row.cards.getLast? = some lc → cardId ≤ lc.id := by
  unfold rowDiff
  cases h : row.cards.getLast? with
  | none => simp
  | some lc =>
    by_cases hlt : lc.id < cardId
    · simp only [if_pos hlt]
      simp
      omega
    · simp only [if_neg hlt]
      simp
      omega

theorem rowDiff_some_facts {cardId : Nat} {row : GameRow} {d : Nat}
    (h : rowDiff cardId row = some d) :
    ∃ lc, row.cards.getLast? = some lc ∧ lc.id < cardId ∧ d = cardId - lc.id := by
  unfold rowDiff at h
  split at h
  next heq => simp at h
  next lc heq =>
    split at h
    next hlt => exact ⟨lc, heq, hlt, by injection h with h; omega⟩
    next hlt => simp at h

theorem rowDiff_of_last {cardId : Nat} {row : GameRow} {lc : CardData}
    (h : row.cards.getLast? = some lc) (hlt : lc.id < cardId) :
    rowDiff cardId row = some (cardId - lc.id) := by
  unfold rowDiff
  rw [h]
  simp [hlt]

theorem findTargetGo_cons (cardId : Nat) (row : GameRow) (rest : List GameRow)
    (idx : Nat) (best : Int) (md : Option Nat) :
    findTargetGo cardId (row :: rest) idx best md =
      match rowDiff cardId row, md with
      | none, _ => findTargetGo cardId rest (idx + 1) best md
      | some d, none => findTargetGo cardId rest (idx + 1) (idx : Int) (some d)
      | some d, some m =>
        if d < m then findTargetGo cardId rest (idx + 1) (idx : Int) (some d)
        else findTargetGo cardId rest (idx + 1) best (some m) := by
  rw [findTargetGo]
  unfold rowDiff
  cases hlast : row.cards.getLast? with
  | none => cases md <;> rfl
  | some lastCard =>
    by_cases hlt : lastCard.id < cardId
    · cases md <;> simp only [if_pos hlt]
    · cases md <;> simp only [if_neg hlt]

theorem findTargetGo_cons_none {cardId : Nat} {row : GameRow} (rest : List GameRow)
    (idx : Nat) (best : Int) (md : Option Nat) (h : rowDiff cardId row = none) :
    findTargetGo cardId (row :: rest) idx best md =
      findTargetGo cardId rest (idx + 1) best md := by
  rw [findTargetGo_cons, h]

theorem findTargetGo_cons_some_none {cardId : Nat} {row : GameRow} {d : Nat}
    (rest : List GameRow) (idx : Nat) (best : Int) (h : rowDiff cardId row = some d) :
    findTargetGo cardId (row :: rest) idx best none =
      findTargetGo cardId rest (idx + 1) (idx : Int) (some d) := by
  rw [findTargetGo_cons, h]

theorem findTargetGo_cons_some_some {cardId : Nat} {row : GameRow} {d : Nat}
    (rest : List GameRow) (idx : Nat) (best : Int) (m : Nat)
    (h : rowDiff cardId row = some d) :
    findTargetGo cardId (row :: rest) idx best (some m) =
      if d < m then findTargetGo cardId rest (idx + 1) (idx : Int) (some d)
      else findTargetGo cardId rest (idx + 1) best (some m) := by
  rw [findTargetGo_cons, h]

theorem findTargetGo_no_candidates (cardId : Nat) :
    ∀ (rows : List GameRow) (idx : Nat) (best : Int) (md : Option Nat),
      (∀ r ∈ rows, rowDiff cardId r = none) →
      findTargetGo cardId rows idx best md = best := by
  intro rows
  induction rows with
  | nil => intro idx best md _; rfl
  | cons row rest ih =>
    intro idx best md h
    rw [findTargetGo_cons_none rest idx best md (h row (by simp))]
    exact ih (idx + 1) best md (fun r hr => h r (List.mem_cons_of_mem _ hr))

theorem findTargetGo_keep (cardId : Nat) :
    ∀ (rows : List GameRow) (idx : Nat) (best : Int) (m : Nat),
      (∀ j, j < rows.length → ∀ dj, rowDiff cardId (rows.getD j dummyRow) = some dj → m ≤ dj) →
      findTargetGo cardId rows idx best (some m) = best := by
  intro rows
  induction rows with
  | nil => intro idx best m _; rfl
  | cons row rest ih =>
    intro idx best m h
    have hrest : ∀ j, j < rest.length → ∀ dj,
        rowDiff cardId (rest.getD j dummyRow) = some dj → m ≤ dj := by
      intro j hj dj hdj
      refine h (j + 1) (by simp; omega) dj ?_
      rw [List.getD_cons_succ]
      exact hdj
    cases hd : rowDiff cardId row with
    | none =>
      rw [findTargetGo_cons_none rest idx best (some m) hd]
      exact ih (idx + 1) best m hrest
    | some d0 =>
      have hm : m ≤ d0 := by
        refine h 0 (by simp) d0 ?_
        rw [List.getD_cons_zero]
        exact hd
      rw [findTargetGo_cons_some_some rest idx best m hd, if_neg (by omega)]
      exact ih (idx + 1) best m hrest

theorem findTargetGo_nonneg (cardId : Nat) :
    ∀ (rows : List GameRow) (idx : Nat) (best : Int) (md : Option Nat),
      0 ≤ best → 0 ≤ findTargetGo cardId rows idx best md := by
  intro rows
  induction rows with
  | nil => intro idx best md h; exact h
  | cons row rest ih =>
    intro idx best md h
    cases hd : rowDiff cardId row with
    | none =>
      rw [findTargetGo_cons_none rest idx best md hd]
      exact ih (idx + 1) best md h
    | some d0 =>
      cases md with
      | none =>
        rw [findTargetGo_cons_some_none rest idx best hd]
        exact ih (idx + 1) _ _ (Int.natCast_nonneg idx)
      | some m =>
        rw [findTargetGo_cons_some_some rest idx best m hd]
        by_cases hc : d0 < m
        · rw [if_pos hc]; exact ih (idx + 1) _ _ (Int.natCast_nonneg idx)
        · rw [if_neg hc]; exact ih (idx + 1) best _ h

theorem findTargetGo_qual_nonneg (cardId : Nat) :
    ∀ (rows : List GameRow) (idx : Nat) (best : Int) (md : Option Nat),
      (∀ m, md = some m → 0 ≤ best) →
      (∃ r ∈ rows, rowDiff cardId r ≠ none) →
      0 ≤ findTargetGo cardId rows idx best md := by
  intro rows
  induction rows with
  | nil => intro idx best md _ h; simp at h
  | cons row rest ih =>
    intro idx best md hinv h
    obtain ⟨r, hr, hrne⟩ := h
    cases hd : rowDiff cardId row with
    | some d0 =>
      cases md with
      | none =>
        rw [findTargetGo_cons_some_none rest idx best hd]
        exact findTargetGo_nonneg cardId rest (idx + 1) _ _ (Int.natCast_nonneg idx)
      | some m =>
        rw [findTargetGo_cons_some_some rest idx best m hd]
        by_cases hc : d0 < m
        · rw [if_pos hc]
          exact findTargetGo_nonneg cardId rest (idx + 1) _ _ (Int.natCast_nonneg idx)
        · rw [if_neg hc]
          exact findTargetGo_nonneg cardId rest (idx + 1) _ _ (hinv m rfl)
    | none =>
      rw [findTargetGo_cons_none rest idx best md hd]
      rcases List.mem_cons.mp hr with rfl | hr'
      · exact absurd hd hrne
      · exact ih (idx + 1) best md hinv ⟨r, hr', hrne⟩

theorem findTargetGo_shape (cardId : Nat) :
    ∀ (rows : List GameRow) (idx : Nat) (best : Int) (md : Option Nat),
      findTargetGo cardId rows idx best md = best ∨
      ∃ k, k < rows.length ∧ ∃ d, rowDiff cardId (rows.getD k dummyRow) = some d ∧
        findTargetGo cardId rows idx best md = ((idx + k : Nat) : Int) := by
  intro rows
  induction rows with
  | nil => intro idx best md; left; rfl
  | cons row rest ih =>
    intro idx best md
    cases hd : rowDiff cardId row with
    | none =>
      rw [findTargetGo_cons_none rest idx best md hd]
      rcases ih (idx + 1) best md with h | ⟨k, hk, d, hkd, hres⟩
      · left; exact h
      · right
        refine ⟨k + 1, by simp; omega, d, by rw [List.getD_cons_succ]; exact hkd, ?_⟩
        rw [hres]
        exact congrArg Nat.cast (by omega)
    | some d0 =>
      have hset : ∀ (b : Int),
          findTargetGo cardId rest (idx + 1) b (some d0) = b ∨
          ∃ k, k < (row :: rest).length ∧ ∃ d,
            rowDiff cardId ((row :: rest).getD k dummyRow) = some d ∧
            findTargetGo cardId rest (idx + 1) b (some d0) = ((idx + k : Nat) : Int) := by
        intro b
        rcases ih (idx + 1) b (some d0) with h | ⟨k, hk, d, hkd, hres⟩
        · left; exact h
        · right
          refine ⟨k + 1, by simp; omega, d, by rw [List.getD_cons_succ]; exact hkd, ?_⟩
          rw [hres]
          exact congrArg Nat.cast (by omega)
      cases md with
      | none =>
        rw [findTargetGo_cons_some_none rest idx best hd]
        rcases hset (idx : Int) with h | ⟨k, hk, d, hkd, hres⟩
        · right
          refine ⟨0, by simp, d0, by rw [List.getD_cons_zero]; exact hd, ?_⟩
          rw [h]
          exact congrArg Nat.cast (by omega)
        · right; exact ⟨k, hk, d, hkd, hres⟩
      | some m =>
        rw [findTargetGo_cons_some_some rest idx best m hd]
        by_cases hc : d0 < m
        · rw [if_pos hc]
          rcases hset (idx : Int) with h | ⟨k, hk, d, hkd, hres⟩
          · right
            refine ⟨0, by simp, d0, by rw [List.getD_cons_zero]; exact hd, ?_⟩
            rw [h]
            exact congrArg Nat.cast (by omega)
          · right; exact ⟨k, hk, d, hkd, hres⟩
        · rw [if_neg hc]
          rcases ih (idx + 1) best (some m) with h | ⟨k, hk, d, hkd, hres⟩
          · left; exact h
          · right
            refine ⟨k + 1, by simp; omega, d, by rw [List.getD_cons_succ]; exact hkd, ?_⟩
            rw [hres]
            exact congrArg Nat.cast (by omega)

theorem findTargetGo_pick (cardId : Nat) :
    ∀ (rows : List GameRow) (idx : Nat) (best : Int) (md : Option Nat) (k d : Nat),
      k < rows.length →
      rowDiff cardId (rows.getD k dummyRow) = some d →
      (∀ m, md = some m → d < m) →
      (∀ j, j < k → ∀ dj, rowDiff cardId (rows.getD j dummyRow) = some dj → d < dj) →
      (∀ j, k < j → j < rows.length → ∀ dj,
        rowDiff cardId (rows.getD j dummyRow) = some dj → d ≤ dj) →
      findTargetGo cardId rows idx best md = ((idx + k : Nat) : Int) := by
  intro rows
  induction rows with
  | nil => intro idx best md k d hk; simp at hk
  | cons row rest ih =>
    intro idx best md k d hk hkd hmd hbef haft
    cases k with
    | zero =>
      have hrow : rowDiff cardId row = some d := by
        rw [List.getD_cons_zero] at hkd; exact hkd
      have hkeep : ∀ best' : Int, findTargetGo cardId rest (idx + 1) best' (some d) = best' := by
        intro best'
        apply findTargetGo_keep
        intro j hj dj hdj
        refine haft (j + 1) (by omega) (by simp; omega) dj ?_
        rw [List.getD_cons_succ]
        exact hdj
      cases md with
      | none =>
        rw [findTargetGo_cons_some_none rest idx best hrow, hkeep]
        exact congrArg Nat.cast (by omega)
      | some m =>
        rw [findTargetGo_cons_some_some rest idx best m hrow, if_pos (hmd m rfl), hkeep]
        exact congrArg Nat.cast (by omega)
    | succ k' =>
      have hkd' : rowDiff cardId (rest.getD k' dummyRow) = some d := by
        rw [List.getD_cons_succ] at hkd; exact hkd
      have hk' : k' < rest.length := by simp at hk; omega
      have hbef' : ∀ j, j < k' → ∀ dj,
          rowDiff cardId (rest.getD j dummyRow) = some dj → d < dj := by
        intro j hj dj hdj
        refine hbef (j + 1) (by omega) dj ?_
        rw [List.getD_cons_succ]
        exact hdj
      have haft' : ∀ j, k' < j → j < rest.length → ∀ dj,
          rowDiff cardId (rest.getD j dummyRow) = some dj → d ≤ dj := by
        intro j hj1 hj2 dj hdj
        refine haft (j + 1) (by omega) (by simp; omega) dj ?_
        rw [List.getD_cons_succ]
        exact hdj
      have hcast : (((idx + 1) + k' : Nat) : Int) = ((idx + (k' + 1) : Nat) : Int) :=
        congrArg Nat.cast (by omega)
      cases hd0 : rowDiff cardId row with
      | none =>
        rw [findTargetGo_cons_none rest idx best md hd0]
        rw [ih (idx + 1) best md k' d hk' hkd' hmd hbef' haft']
        exact hcast
      | some d0 =>
        have hdd0 : d < d0 := by
          refine hbef 0 (by omega) d0 ?_
          rw [List.getD_cons_zero]
          exact hd0
        have hmd0 : ∀ m, (some d0 : Option Nat) = some m → d < m := by
          intro m hm; injection hm with hm; omega
        cases md with
        | none =>
          rw [findTargetGo_cons_some_none rest idx best hd0]
          rw [ih (idx + 1) (idx : Int) (some d0) k' d hk' hkd' hmd0 hbef' haft']
          exact hcast
        | some m =>
          rw [findTargetGo_cons_some_some rest idx best m hd0]
          by_cases hc : d0 < m
          · rw [if_pos hc, ih (idx + 1) (idx : Int) (some d0) k' d hk' hkd' hmd0 hbef' haft']
            exact hcast
          · rw [if_neg hc, ih (idx + 1) best (some m) k' d hk' hkd' hmd hbef' haft']
            exact hcast

theorem findTargetRowIndex_eq (card : CardData) (rows : List GameRow) :
    findTargetRowIndex card rows = findTargetGo card.id rows 0 (-1) none := rfl

theorem boardInv_exampleRows : boardInv exampleRows := by
  intro r hr
  simp only [exampleRows, List.mem_cons, List.not_mem_nil, or_false] at hr
  rcases hr with rfl | rfl | rfl | rfl <;>
    exact ⟨List.chain'_singleton _, by simp, by simp⟩

theorem getD_mem_of_lt {l : List GameRow} {n : Nat} (h : n < l.length) :
    l.getD n dummyRow ∈ l := by
  rw [List.getD_eq_getElem l dummyRow h]
  exact List.getElem_mem h

theorem getD_set_self {l : List GameRow} {i : Nat} {v : GameRow} (h : i < l.length) :
    (l.set i v).getD i dummyRow = v := by
  rw [List.getD_eq_getElem?_getD, List.getElem?_set_self h]
  rfl

theorem getD_set_ne {l : List GameRow} {i j : Nat} {v : GameRow} (h : i ≠ j) :
    (l.set i v).getD j dummyRow = l.getD j dummyRow := by
  rw [List.getD_eq_getElem?_getD, List.getElem?_set_ne h, ← List.getD_eq_getElem?_getD]

theorem getD_map_player {f : Player → Player} {l : List Player} {k : Nat} (h : k < l.length) :
    (l.map f).getD k dummyPlayer = f (l.getD k dummyPlayer) := by
  rw [List.getD_eq_getElem?_getD, List.getElem?_map, List.getElem?_eq_getElem h,
    List.getD_eq_getElem l dummyPlayer h]
  rfl

theorem turnLe_trans : ∀ (a b c : TurnCard),
    turnLe a b = true → turnLe b c = true → turnLe a c = true := by
  intro a b c hab hbc
  simp only [turnLe, decide_eq_true_eq] at hab hbc ⊢
  omega

theorem turnLe_total : ∀ (a b : TurnCard), (turnLe a b || turnLe b a) = true := by
  intro a b
  simp only [turnLe, Bool.or_eq_true, decide_eq_true_eq]
  omega

theorem resolutionOrder_eq_drop (tc : List TurnCard) :
    ∀ i, resolutionOrder tc i = tc.drop i := by
  have haux : ∀ n i, tc.length - i ≤ n → resolutionOrder tc i = tc.drop i := by
    intro n
    induction n with
    | zero =>
      intro i hle
      rw [resolutionOrder, dif_neg (by omega)]
      exact (List.drop_eq_nil_of_le (by omega)).symm
    | succ n ihn =>
      intro i hle
      rw [resolutionOrder]
      by_cases h : i < tc.length
      · rw [dif_pos h, ihn (i + 1) (by omega), List.getD_eq_getElem tc dummyTurn h]
        exact (List.drop_eq_getElem_cons h).symm
      · rw [dif_neg h]
        exact (List.drop_eq_nil_of_le (by omega)).symm
  exact fun i => haux (tc.length - i) i (le_refl _)

theorem processCardPlacement_normal_facts {card : CardData} {rows : List GameRow} {i : Nat}
    (h : processCardPlacement card rows = PlacementOutcome.normal i) :
    i < rows.length ∧ (rows.getD i dummyRow).cards.length < 5 ∧
      ∃ lc, (rows.getD i dummyRow).cards.getLast? = some lc ∧ lc.id < card.id := by
  unfold processCardPlacement at h
  split at h
  · exact absurd h (by simp)
  next hneg =>
    split at h
    · exact absurd h (by simp)
    next hlen =>
      injection h with h
      rcases findTargetGo_shape card.id rows 0 (-1) none with hsh | ⟨k, hk, d, hkd, hres⟩
      · rw [findTargetRowIndex_eq] at hneg
        exact absurd hsh hneg
      · rw [findTargetRowIndex_eq, hres] at h hlen
        have hik : i = k := by omega
        subst hik
        obtain ⟨lc, hlc, hlt, _⟩ := rowDiff_some_facts hkd
        have : ¬ 5 ≤ (rows.getD i dummyRow).cards.length := by
          simpa using hlen
        exact ⟨hk, by omega, lc, hlc, hlt⟩

/-- C4: on a board of non-empty rows with pairwise distinct last-card ids,
`findTargetRowIndex` returns -1 exactly when the card is below every row's
last card, and otherwise the index of the row whose last card is the largest
one strictly below the played card; the spec's 10/25/60/90 examples hold. -/
theorem claim_C4_findTargetRow :
    (∀ (card : CardData) (rows : List GameRow),
      (∀ r ∈ rows, r.cards ≠ []) →
      (∀ i, i < rows.length → ∀ j, j < rows.length → i ≠ j →
        ((rows.getD i dummyRow).cards.getLastD dummyCard).id ≠
          ((rows.getD j dummyRow).cards.getLastD dummyCard).id) →
      ((findTargetRowIndex card rows = -1 ↔
          ∀ r ∈ rows, card.id ≤ (r.cards.getLastD dummyCard).id) ∧
        (∀ k, k < rows.length →
          ((rows.getD k dummyRow).cards.getLastD dummyCard).id < card.id →
          (∀ j, j < rows.length →
            ((rows.getD j dummyRow).cards.getLastD dummyCard).id < card.id →
            ((rows.getD j dummyRow).cards.getLastD dummyCard).id ≤
              ((rows.getD k dummyRow).cards.getLastD dummyCard).id) →
          findTargetRowIndex card rows = (k : Int)))) ∧
    findTargetRowIndex { id := 30, bullHeads := getBullHeads 30 } exampleRows = 1 ∧
    findTargetRowIndex { id := 5, bullHeads := getBullHeads 5 } exampleRows = -1 := by
  refine ⟨?_, by decide, by decide⟩
  intro card rows hne hdist
  constructor
  · constructor
    · intro hres r hr
      by_contra hlt
      push_neg at hlt
      have hlast := getLast?_of_ne_nil (hne r hr)
      have hq : rowDiff card.id r ≠ none := by
        rw [rowDiff_of_last hlast hlt]
        simp
      have hge := findTargetGo_qual_nonneg card.id rows 0 (-1) none (by simp) ⟨r, hr, hq⟩
      rw [findTargetRowIndex_eq] at hres
      omega
    · intro h
      rw [findTargetRowIndex_eq]
      apply findTargetGo_no_candidates
      intro r hr
      rw [rowDiff_eq_none_iff]
      intro lc hlc
      have hlast := getLast?_of_ne_nil (hne r hr)
      rw [hlast] at hlc
      injection hlc with hlc
      rw [← hlc]
      exact h r hr
  · intro k hk hklt hmax
    have hlastk := getLast?_of_ne_nil (hne _ (getD_mem_of_lt hk))
    have hdk : rowDiff card.id (rows.getD k dummyRow) =
        some (card.id - ((rows.getD k dummyRow).cards.getLastD dummyCard).id) :=
      rowDiff_of_last hlastk hklt
    have hside : ∀ j, j < rows.length → j ≠ k → ∀ dj,
        rowDiff card.id (rows.getD j dummyRow) = some dj →
        card.id - ((rows.getD k dummyRow).cards.getLastD dummyCard).id < dj := by
      intro j hj hjk dj hdj
      obtain ⟨lc, hlc, hlt', hd⟩ := rowDiff_some_facts hdj
      have hlastj := getLast?_of_ne_nil (hne _ (getD_mem_of_lt hj))
      rw [hlastj] at hlc
      injection hlc with hlc
      have hle : ((rows.getD j dummyRow).cards.getLastD dummyCard).id ≤
          ((rows.getD k dummyRow).cards.getLastD dummyCard).id := by
        refine hmax j hj ?_
        rw [hlc]
        exact hlt'
      have hnej : ((rows.getD j dummyRow).cards.getLastD dummyCard).id ≠
          ((rows.getD k dummyRow).cards.getLastD dummyCard).id :=
        hdist j hj k hk hjk
      rw [hlc] at hle hnej
      omega
    rw [findTargetRowIndex_eq,
      findTargetGo_pick card.id rows 0 (-1) none k
        (card.id - ((rows.getD k dummyRow).cards.getLastD dummyCard).id) hk hdk
        (by simp)
        (fun j hj dj hdj => hside j (by omega) (by omega) dj hdj)
        (fun j hj1 hj2 dj hdj => le_of_lt (hside j hj2 (by omega) dj hdj))]
    exact congrArg Nat.cast (Nat.zero_add k)

/-- C4 witness: the characterization applied to the concrete 10/25/60/90 board
with played card 30 yields row index 1 (the row ending in 25). -/
theorem claim_C4_findTargetRow_witness :
    findTargetRowIndex { id := 30, bullHeads := getBullHeads 30 } exampleRows = ((1 : Nat) : Int) :=
  (claim_C4_findTargetRow.1 { id := 30, bullHeads := getBullHeads 30 } exampleRows
    (by decide) (by decide)).2 1 (by decide) (by decide) (by decide)

/-- C10: `findTargetRowIndex` is total on every board: it returns -1 exactly
when no row's last card (empty rows imposing no constraint) is below the
played card, and any returned index points at a non-empty row whose last card
is strictly below the played card — so empty rows are never chosen. -/
theorem claim_C10_total_skips_empty_rows :
    ∀ (card : CardData) (rows : List GameRow),
      (findTargetRowIndex card rows = -1 ↔
        ∀ r ∈ rows, ∀ lastCard, r.cards.getLast? = some lastCard → card.id ≤ lastCard.id) ∧
      (findTargetRowIndex card rows ≠ -1 →
        ∃ k, k < rows.length ∧ findTargetRowIndex card rows = (k : Int) ∧
          (rows.getD k dummyRow).cards ≠ [] ∧
          ∃ lastCard, (rows.getD k dummyRow).cards.getLast? = some lastCard ∧
            lastCard.id < card.id) := by
  intro card rows
  constructor
  · constructor
    · intro hres r hr lc hlc
      by_contra hlt
      push_neg at hlt
      have hq : rowDiff card.id r ≠ none := by
        rw [rowDiff_of_last hlc hlt]
        simp
      have hge := findTargetGo_qual_nonneg card.id rows 0 (-1) none (by simp) ⟨r, hr, hq⟩
      rw [findTargetRowIndex_eq] at hres
      omega
    · intro h
      rw [findTargetRowIndex_eq]
      apply findTargetGo_no_candidates
      intro r hr
      rw [rowDiff_eq_none_iff]
      exact fun lc hlc => h r hr lc hlc
  · intro hne
    rcases findTargetGo_shape card.id rows 0 (-1) none with hsh | ⟨k, hk, d, hkd, hres⟩
    · rw [findTargetRowIndex_eq] at hne
      exact absurd hsh hne
    · obtain ⟨lc, hlc, hlt, _⟩ := rowDiff_some_facts hkd
      refine ⟨k, hk, ?_, ?_, lc, hlc, hlt⟩
      · rw [findTargetRowIndex_eq, hres]
        exact congrArg Nat.cast (Nat.zero_add k)
      · intro hnil
        rw [hnil] at hlc
        simp at hlc

/-- C10 witness: on a board whose first row is empty, a card below both
non-empty rows' last cards (25 and 60) yields -1 — the empty row imposes no
constraint and the function does not fail. -/
theorem claim_C10_total_skips_empty_rows_witness :
    findTargetRowIndex { id := 2, bullHeads := getBullHeads 2 } rowsWithEmpty = -1 :=
  (claim_C10_total_skips_empty_rows { id := 2, bullHeads := getBullHeads 2 }
    rowsWithEmpty).1.mpr (by decide)

/-! ### Claim theorems -/

/-- C2: `calculateRoundScore(p, allPlayers)` equals the total heads of all
players minus the player's own heads times the player count; for two players
with 3 and 7 collected heads the scores are 4 and -4. -/
theorem claim_C2_roundScore_formula :
    (∀ (p : Player) (allPlayers : List Player),
      calculateRoundScore p allPlayers =
        (((allPlayers.map (fun q => sumBullHeads q.collectedCards)).sum : Nat) : Int) -
          ((sumBullHeads p.collectedCards : Nat) : Int) * (allPlayers.length : Int)) ∧
    sumBullHeads examplePlayerA.collectedCards = 3 ∧
    sumBullHeads examplePlayerB.collectedCards = 7 ∧
    calculateRoundScore examplePlayerA [examplePlayerA, examplePlayerB] = 4 ∧
    calculateRoundScore examplePlayerB [examplePlayerA, examplePlayerB] = -4 := by
  refine ⟨calculateRoundScore_eq, by decide, by decide, by decide, by decide⟩

/-- C1 counterexample: for two players with 3 and 7 collected heads the sum of
round scores is 0, but `totalHeads * (1 - playerCount) = 10 * (1 - 2) = -10`,
so the claimed equation fails. -/
theorem claim_C1_counterexample :
    ¬ (([examplePlayerA, examplePlayerB].map
          (fun p => calculateRoundScore p [examplePlayerA, examplePlayerB])).sum =
        ((([examplePlayerA, examplePlayerB].map
            (fun q => sumBullHeads q.collectedCards)).sum : Nat) : Int) *
          (1 - ([examplePlayerA, examplePlayerB].length : Int))) := by
  decide

/-- C1 amended: the sum of `calculateRoundScore` over all players is always 0
(each score is `T - h_p * n` with `T` the sum of the `h_p` over the `n`
players, so the sum telescopes to `n*T - n*T`); it equals
`totalHeads * (1 - playerCount)` only when that product is itself 0. -/
theorem claim_C1_amended_roundScore_sum_zero (allPlayers : List Player) :
    ((allPlayers.map (fun p => calculateRoundScore p allPlayers)).sum) = 0 := by
  have hmap : allPlayers.map (fun p => calculateRoundScore p allPlayers) =
      allPlayers.map (fun p =>
        (((allPlayers.map (fun q => sumBullHeads q.collectedCards)).sum : Nat) : Int) -
          ((sumBullHeads p.collectedCards : Nat) : Int) * (allPlayers.length : Int)) := by
    apply List.map_congr_left
    intro p _
    exact calculateRoundScore_eq p allPlayers
  rw [hmap, sum_map_sub_mul]
  rw [← cast_sum_map (fun q => sumBullHeads q.collectedCards) allPlayers]
  ring

/-- C3: the penalty function agrees with the spec's piecewise definition on
every id, takes the quoted values at 55, 11, 100, 98 and 25, and is at least 1
on every id in `[1, 104]`. -/
theorem claim_C3_penalty_function :
    (∀ n, getBullHeads n = penaltySpec n) ∧
    getBullHeads 55 = 7 ∧ getBullHeads 11 = 5 ∧ getBullHeads 100 = 3 ∧
    getBullHeads 98 = 1 ∧ getBullHeads 25 = 2 ∧
    (∀ n, 1 ≤ n → n ≤ 104 → 1 ≤ getBullHeads n) := by
  refine ⟨fun n => rfl, by decide, by decide, by decide, by decide, by decide, ?_⟩
  intro n _ _
  exact getBullHeads_ge_one n

/-- C3 witness: the general statement instantiated at id 104. -/
theorem claim_C3_penalty_function_witness : 1 ≤ getBullHeads 104 :=
  claim_C3_penalty_function.2.2.2.2.2.2 104 (by decide) (by decide)

/-- C5: capturing a row (the shared `executeRowTake` of the too-low and
overflow events) replaces the row by a singleton holding only the played card,
leaves other rows untouched, and appends exactly the row's cards to the taking
player's `collectedCards` while other players are unchanged; the concrete
`[1,2,3,4,5]` + card 6 overflow behaves as the spec states. -/
theorem claim_C5_capture_transfer :
    (∀ (turn : TurnCard) (rowIndex : Nat) (ps : List Player) (rows : List GameRow),
      rowIndex < rows.length →
      ((executeRowTake turn rowIndex ps rows).2.getD rowIndex dummyRow).cards = [turn.card] ∧
      (∀ j, j < rows.length → j ≠ rowIndex →
        (executeRowTake turn rowIndex ps rows).2.getD j dummyRow = rows.getD j dummyRow) ∧
      (executeRowTake turn rowIndex ps rows).2.length = rows.length ∧
      (executeRowTake turn rowIndex ps rows).1.length = ps.length ∧
      (∀ k, k < ps.length →
        ((ps.getD k dummyPlayer).id = turn.playerId →
          ((executeRowTake turn rowIndex ps rows).1.getD k dummyPlayer).collectedCards =
            (ps.getD k dummyPlayer).collectedCards ++ (rows.getD rowIndex dummyRow).cards) ∧
        ((ps.getD k dummyPlayer).id ≠ turn.playerId →
          (executeRowTake turn rowIndex ps rows).1.getD k dummyPlayer =
            ps.getD k dummyPlayer))) ∧
    processCardPlacement { id := 6, bullHeads := getBullHeads 6 } [fullRow] =
      PlacementOutcome.overflow 0 ∧
    executeRowTake overflowTurn 0 [takerPlayer] [fullRow] =
      ([{ takerPlayer with collectedCards := takerPlayer.collectedCards ++ fullRow.cards }],
       [{ cards := [overflowTurn.card] }]) := by
  refine ⟨?_, by decide, by decide⟩
  intro turn rowIndex ps rows hlt
  have h2 : (executeRowTake turn rowIndex ps rows).2 =
      rows.set rowIndex { cards := [turn.card] } := rfl
  have h1 : (executeRowTake turn rowIndex ps rows).1 =
      ps.map (fun p =>
        if p.id = turn.playerId then
          { p with collectedCards := p.collectedCards ++ (rows.getD rowIndex dummyRow).cards }
        else p) := rfl
  refine ⟨?_, ?_, ?_, ?_, ?_⟩
  · rw [h2, getD_set_self hlt]
  · intro j hj hne
    rw [h2, getD_set_ne (fun h => hne h.symm)]
  · rw [h2, List.length_set]
  · rw [h1, List.length_map]
  · intro k hk
    constructor
    · intro hid
      rw [h1, getD_map_player hk, if_pos hid]
    · intro hid
      rw [h1, getD_map_player hk, if_neg hid]

/-- C5 witness: the row-replacement component at the concrete overflow input. -/
theorem claim_C5_capture_transfer_witness :
    ((executeRowTake overflowTurn 0 [takerPlayer] [fullRow]).2.getD 0 dummyRow).cards =
      [overflowTurn.card] :=
  (claim_C5_capture_transfer.1 overflowTurn 0 [takerPlayer] [fullRow] (by decide)).1

/-- C6: a board whose rows are all singletons (as seeded) satisfies the
invariant, and every resolution step — normal append, overflow capture, or
too-low capture — preserves it: each row's ids stay strictly increasing and
each row keeps between 1 and 5 cards. -/
theorem claim_C6_row_invariant :
    (∀ rows : List GameRow, (∀ r ∈ rows, ∃ c, r.cards = [c]) → boardInv rows) ∧
    (∀ (turn : TurnCard) (s sNext : List Player × List GameRow),
      ResolutionStep turn s sNext → boardInv s.2 → boardInv sNext.2) := by
  constructor
  · intro rows h r hr
    obtain ⟨c, hc⟩ := h r hr
    refine ⟨?_, by rw [hc]; simp, by rw [hc]; simp⟩
    unfold rowSorted
    rw [hc]
    exact List.chain'_singleton _
  · intro turn s sNext hstep hinv
    cases hstep with
    | normal ps rows i hpc =>
      obtain ⟨hilen, hlen5, lc, hlast, hlt⟩ := processCardPlacement_normal_facts hpc
      intro r hr
      unfold placeCardInRow at hr
      rcases List.mem_or_eq_of_mem_set hr with hr' | rfl
      · exact hinv r hr'
      · have hrowinv := hinv (rows.getD i dummyRow) (getD_mem_of_lt hilen)
        refine ⟨?_, by simp only [List.length_append, List.length_singleton]; omega,
          by simp only [List.length_append, List.length_singleton]; omega⟩
        unfold rowSorted at hrowinv ⊢
        simp only [List.map_append]
        rw [List.chain'_append]
        refine ⟨hrowinv.1, List.chain'_singleton _, ?_⟩
        intro x hx y hy
        rw [List.getLast?_map, hlast] at hx
        simp at hx hy
        omega
    | overflow ps rows i hpc =>
      intro r hr
      have h2 : (executeRowTake turn i ps rows).2 =
          rows.set i { cards := [turn.card] } := rfl
      rw [h2] at hr
      rcases List.mem_or_eq_of_mem_set hr with hr' | rfl
      · exact hinv r hr'
      · exact ⟨List.chain'_singleton _, by simp, by simp⟩
    | tooLow ps rows j hpc hj =>
      intro r hr
      have h2 : (executeRowTake turn j ps rows).2 =
          rows.set j { cards := [turn.card] } := rfl
      rw [h2] at hr
      rcases List.mem_or_eq_of_mem_set hr with hr' | rfl
      · exact hinv r hr'
      · exact ⟨List.chain'_singleton _, by simp, by simp⟩

/-- C6 witness: the preservation theorem applied to the concrete normal append
of card 30 onto the 10/25/60/90 board. -/
theorem claim_C6_row_invariant_witness :
    boardInv (placeCardInRow exampleTurn.card 1 exampleRows) :=
  claim_C6_row_invariant.2 exampleTurn ([], exampleRows)
    ([], placeCardInRow exampleTurn.card 1 exampleRows)
    (ResolutionStep.normal [] exampleRows 1 (by decide)) boardInv_exampleRows

/-- C7: the turn batch built at reveal time pairs each player with their
selected card, is sorted ascending by card id, and the resolution loop
(starting from index 0 and advancing one index at a time over the fixed list)
processes exactly that list in that order. -/
theorem claim_C7_reveal_order :
    ∀ (players : List Player),
      (∀ p ∈ players, p.selectedCard.isSome) →
      List.Pairwise (fun a b : TurnCard => a.card.id ≤ b.card.id)
        (startRevealTurnCards players) ∧
      (startRevealTurnCards players).Perm
        (players.map (fun p => { playerId := p.id, card := p.selectedCard.getD dummyCard })) ∧
      resolutionOrder (startRevealTurnCards players) 0 = startRevealTurnCards players := by
  intro players hsel
  refine ⟨?_, List.mergeSort_perm _ _, ?_⟩
  · have hs := @List.sorted_mergeSort TurnCard turnLe turnLe_trans turnLe_total
      (players.map (fun p => { playerId := p.id, card := p.selectedCard.getD dummyCard }))
    refine hs.imp ?_
    intro a b h
    simpa [turnLe] using h
  · rw [resolutionOrder_eq_drop]
    exact List.drop_zero _

/-- C7 witness: the processed order equals the built batch for two concrete
players who selected cards 20 and 7. -/
theorem claim_C7_reveal_order_witness :
    resolutionOrder (startRevealTurnCards [revealPlayerX, revealPlayerY]) 0 =
      startRevealTurnCards [revealPlayerX, revealPlayerY] :=
  (claim_C7_reveal_order [revealPlayerX, revealPlayerY] (by decide)).2.2

/-- C9: when a batch finishes with every hand empty, the phase becomes
`ROUND_VOTING` and every player gets exactly one new `RoundResult` — holding
that round's score and collected heads — appended to `scoreHistory`, with
`totalScore` increased by exactly that score. -/
theorem claim_C9_round_completion :
    ∀ (players : List Player), players ≠ [] →
      (∀ p ∈ players, p.hand = []) →
      (finishTurnSet players).2 = GamePhase.ROUND_VOTING ∧
      (finishTurnSet players).1.length = players.length ∧
      (∀ k, k < players.length →
        ((finishTurnSet players).1.getD k dummyPlayer).scoreHistory =
          (players.getD k dummyPlayer).scoreHistory ++
            [{ score := calculateRoundScore (players.getD k dummyPlayer) players,
               heads := sumBullHeads (players.getD k dummyPlayer).collectedCards }] ∧
        ((finishTurnSet players).1.getD k dummyPlayer).totalScore =
          (players.getD k dummyPlayer).totalScore +
            calculateRoundScore (players.getD k dummyPlayer) players) := by
  intro players hne hempty
  have hfin : finishTurnSet players = calculateScoresAndNextRound players := by
    unfold finishTurnSet
    cases players with
    | nil => exact absurd rfl hne
    | cons p0 rest =>
      simp only [List.map_cons, List.head?_cons]
      have h0 : p0.hand = [] := hempty p0 (by simp)
      rw [if_pos (by simp [h0])]
  rw [hfin]
  unfold calculateScoresAndNextRound
  refine ⟨rfl, by simp, ?_⟩
  intro k hk
  rw [getD_map_player hk]
  exact ⟨rfl, rfl⟩

/-- C9 witness: the completion theorem applied to two concrete players with
empty hands; the phase after `finishTurnSet` is `ROUND_VOTING`. -/
theorem claim_C9_round_completion_witness :
    (finishTurnSet [examplePlayerA, examplePlayerB]).2 = GamePhase.ROUND_VOTING :=
  (claim_C9_round_completion [examplePlayerA, examplePlayerB] (by decide) (by decide)).1

/-- C8 (code bug evaluation): `handlePlayerAction` (the handler behind a
`selectCard` intent, identical in both App variants) performs no hand-membership
check: a player holding only card 5 who submits card 99 ends up with
`selectedCard = some 99` instead of the intent being rejected as a no-op. -/
theorem claim_C8_selectCard_not_validated :
    outOfHandCard ∉ selectPlayer.hand ∧
    handlePlayerAction outOfHandCard "p1" [selectPlayer] =
      [{ selectPlayer with selectedCard := some outOfHandCard, isReady := false }] ∧
    (handlePlayerAction outOfHandCard "p1" [selectPlayer]).getD 0 dummyPlayer ≠ selectPlayer := by
  refine ⟨by decide, by decide, by decide⟩

end CowKing
